import Mathlib

/-!
# Verification of the repub package-repository server

A shallow embedding of the publish workflow, archive extractor, manifest
validator, query path and HTTP staging handlers of the repub server
(`internal/service/pub.go`, `internal/handlers/publish.go`,
`internal/repository/pkg` / `pubspec` / `storage`, `sql/schema_sqlite.sql`),
together with theorems settling the specification claims.

Modelling conventions:
* Go byte slices are `List Nat`; only equality and length are consumed.
* Go `string` is Lean `String`; the byte-indexed operations of the source
  (`part[0]`, `strings.Split` on a one-character separator) are modelled on
  the character list `String.data`, which agrees with the byte-level code on
  the separators and digit tests involved because these are ASCII.
* `strings.ToLower` is modelled by its ASCII mapping (the relevant file-name
  comparisons in the source are against pure-ASCII literals).
* external collaborators (the gzip/tar decoders, the YAML unmarshaller, the
  SHA-256 digest, the Package/Version store, the blob store) are parameters,
  exactly as they are injected dependencies in the Go service; the SQLite
  store of `sql/schema_sqlite.sql` + `internal/testutil/sqlite_repo.go` and
  the local blob store of `internal/repository/storage` are also given
  concrete executable models.
-/

deriving instance DecidableEq for Except

namespace Repub

/-- Go byte slice: only length and equality are consumed by the modelled code. -/
abbrev Bytes := List Nat

/-! ## Go string helpers (strings.Split, strings.TrimPrefix, strings.ToLower,
    strings.Contains with a one-character needle) -/

/-- `strings.Split s sep` for a one-character separator, on char lists.
Matches Go semantics: splitting the empty string yields `[[]]`. -/
def splitOnChar (sep : Char) : List Char → List (List Char)
  | [] => [[]]
  | c :: cs =>
    if c = sep then [] :: splitOnChar sep cs
    else
      match splitOnChar sep cs with
      | r :: rs => (c :: r) :: rs
      | [] => [[c]]

/-- Test that `pat` is a leading run of `l` (Go `strings.HasPrefix` on lists). -/
def leadsList : List Char → List Char → Bool
  | [], _ => true
  | _ :: _, [] => false
  | a :: as, b :: bs => a == b && leadsList as bs

/-- Occurrence of `pat` as a contiguous run inside `l`
(Go `strings.Contains` on lists). -/
def listContainsSub (pat : List Char) : List Char → Bool
  | [] => pat.isEmpty
  | c :: cs => leadsList pat (c :: cs) || listContainsSub pat cs

/-- `strings.Contains s pat`: `pat` occurs contiguously in `s`. -/
def strContainsSub (s pat : String) : Bool :=
  listContainsSub pat.data s.data

/-! ## Archive Extractor (`extractFilesFromArchive`, pub.go)

The gzip and tar decoding performed by `compress/gzip` / `archive/tar` is an
external stdlib collaborator; it is modelled as an injected decoder producing
the list of tar entries.  The per-entry loop of `extractFilesFromArchive`
(path normalisation, manifest / README / CHANGELOG capture) is modelled
verbatim below. -/

/-- A decoded tar entry: header name, directory flag, file content. -/
structure TarEntry where
  name : String
  isDir : Bool
  content : String
deriving Repr, DecidableEq

/-- Errors of the extractor.  `archiveError` stands for a gzip/tar decode
failure of the external readers; `manifestNotFound` is the in-repo
"pubspec.yaml not found in archive" failure. -/
inductive ExtractErr where
  | archiveError (e : String)
  | manifestNotFound
deriving Repr, DecidableEq

def ExtractErr.message : ExtractErr → String
  | .archiveError e => e
  | .manifestNotFound => "pubspec.yaml not found in archive"

/-- ASCII `strings.ToLower` on a character. -/
def asciiLower (c : Char) : Char :=
  if 'A' ≤ c ∧ c ≤ 'Z' then Char.ofNat (c.toNat + 32) else c

/-- ASCII `strings.ToLower` on a string. -/
def lowerStr (s : String) : String := ⟨s.data.map asciiLower⟩

/-- `strings.TrimPrefix s "./"` followed by dropping the first path segment
when the entry name has more than one segment (pub.go lines 354-360). -/
def stripEntryName (name : String) : String :=
  let fileName : String :=
    if leadsList "./".data name.data then ⟨name.data.drop 2⟩ else name
  let parts := splitOnChar '/' fileName.data
  if parts.length > 1 then
    String.intercalate "/" ((parts.drop 1).map fun l => ⟨l⟩)
  else fileName

/-- Accumulator of the extraction loop (`pubspecContent`, `foundPubspec`,
`readme`, `changelog` in pub.go). -/
structure ExtractAcc where
  pubspecContent : String
  foundPubspec : Bool
  readme : Option String
  changelog : Option String
deriving Repr, DecidableEq

/-- One iteration of the tar-entry loop of `extractFilesFromArchive`. -/
def extractStep (acc : ExtractAcc) (e : TarEntry) : ExtractAcc :=
  if e.isDir then acc
  else
    let fileName := stripEntryName e.name
    if lowerStr fileName = "pubspec.yaml" then
      if acc.foundPubspec = false ∧ fileName.data.contains '/' = false then
        { acc with pubspecContent := e.content, foundPubspec := true }
      else acc
    else if lowerStr fileName = "readme.md" then
      { acc with readme := some e.content }
    else if lowerStr fileName = "changelog.md" then
      { acc with changelog := some e.content }
    else acc

/-- The tar-entry loop of `extractFilesFromArchive` followed by the final
`foundPubspec` check. -/
def extractEntries (entries : List TarEntry) :
    Except ExtractErr (String × Option String × Option String) :=
  let acc := entries.foldl extractStep ⟨"", false, none, none⟩
  if acc.foundPubspec then .ok (acc.pubspecContent, acc.readme, acc.changelog)
  else .error .manifestNotFound

/-- `extractFilesFromArchive`: decode the gzip-compressed tar stream through
the injected stdlib decoder, then run the entry loop. -/
def extractFilesFromArchive (decode : Bytes → Except String (List TarEntry))
    (archiveData : Bytes) :
    Except ExtractErr (String × Option String × Option String) :=
  match decode archiveData with
  | .error e => .error (.archiveError e)
  | .ok entries => extractEntries entries

/-! ## Manifest Parser/Validator (`internal/repository/pkg/postgres.go`,
package `pubspec`) -/

/-- The typed manifest fields consumed by the publish workflow
(`domain.Pubspec`; the remaining optional fields pass through unvalidated
and are not consumed by any modelled operation). -/
structure Pubspec where
  name : String
  version : String
  description : String
deriving Repr, DecidableEq

/-- `isValidPackageName` (postgres.go lines 355-374). -/
def isValidPackageName (name : String) : Bool :=
  if name.data.length = 0 ∨ name.data.length > 64 then false
  else
    match name.data with
    | [] => false
    | first :: _ =>
      if ('a' ≤ first ∧ first ≤ 'z') ∨ ('A' ≤ first ∧ first ≤ 'Z') ∨ first = '_' then
        name.data.all fun c =>
          ('a' ≤ c ∧ c ≤ 'z') ∨ ('A' ≤ c ∧ c ≤ 'Z') ∨ ('0' ≤ c ∧ c ≤ '9') ∨ c = '_'
      else false

/-- The per-segment acceptance check of `isValidVersion`: a segment is
rejected when empty, accepted when it contains `-` or `+` (pre-release /
build metadata), otherwise accepted exactly when it starts with a digit. -/
def versionPartOk (part : List Char) : Bool :=
  match part with
  | [] => false
  | c :: _ =>
    if part.contains '-' ∨ part.contains '+' then true
    else decide ('0' ≤ c ∧ c ≤ '9')

/-- `isValidVersion` (postgres.go lines 377-404): split on `.`, require at
least three segments, check each segment with `versionPartOk`. -/
def isValidVersion (version : String) : Bool :=
  if version.data.length = 0 then false
  else
    let parts := splitOnChar '.' version.data
    if parts.length < 3 then false
    else parts.all versionPartOk

/-- `ValidatePubspec` (postgres.go lines 253-273). -/
def ValidatePubspec (p : Pubspec) : Except String Unit :=
  if p.name = "" then .error "package name is required"
  else if p.version = "" then .error "package version is required"
  else if isValidPackageName p.name = false then
    .error ("invalid package name format: " ++ p.name)
  else if isValidVersion p.version = false then
    .error ("invalid version format: " ++ p.version)
  else .ok ()

/-- `strings.TrimSpace` on char lists (leading and trailing whitespace). -/
def goTrimSpace (s : String) : String :=
  ⟨((s.data.dropWhile Char.isWhitespace).reverse.dropWhile
      Char.isWhitespace).reverse⟩

/-- `ParseYAML` (postgres.go lines 234-251): reject blank content, run the
external YAML unmarshaller (injected), validate the result. -/
def ParseYAML (unmarshal : String → Except String Pubspec)
    (yamlContent : String) : Except String Pubspec :=
  if goTrimSpace yamlContent = "" then .error "pubspec content is empty"
  else
    match unmarshal yamlContent with
    | .error e => .error ("failed to parse YAML: " ++ e)
    | .ok ps =>
      match ValidatePubspec ps with
      | .error e => .error ("pubspec validation failed: " ++ e)
      | .ok _ => .ok ps

/-! ## Domain records (`internal/domain/package.go`)

Only the attributes consumed by the modelled operations are carried;
timestamps are a logical clock assigned by the store. -/

/-- `domain.Package` (identity attributes consumed by the workflow). -/
structure Package where
  id : Nat
  name : String
  isPrivate : Bool
deriving Repr, DecidableEq

/-- `domain.PackageVersion`. -/
structure PackageVersion where
  id : Nat
  packageID : Nat
  version : String
  description : Option String
  pubspecYaml : String
  readme : Option String
  changelog : Option String
  archivePath : String
  archiveSha256 : Option String
  uploader : Option String
  retracted : Bool
  downloadCount : Nat
  createdAt : Nat
deriving Repr, DecidableEq

/-- `domain.PublishRequest`. -/
structure PublishRequest where
  archive : Bytes
  uploader : String
deriving Repr, DecidableEq

/-- `domain.PublishResponse` (`Fields` modelled as an association list). -/
structure PublishResponse where
  url : String
  fields : List (String × String)
deriving Repr, DecidableEq

/-- The errors of `PublishPackage` (pub.go), one constructor per
`fmt.Errorf` site; `message` renders the exact Go error string.
Constructors wrapping a collaborator failure carry its message. -/
inductive PubErr where
  | extractFailed (e : String)
  | parseFailed (e : String)
  | getPackageFailed (e : String)
  | createPackageFailed (e : String)
  | getUploadersFailed (e : String)
  | addUploaderFailed (e : String)
  | unauthorized (name : String)
  | getVersionsFailed (e : String)
  | versionExists (v name : String)
  | storeFailed (e : String)
  | createVersionFailed (e : String)
deriving Repr, DecidableEq

def PubErr.message : PubErr → String
  | .extractFailed e => "failed to extract files from archive: " ++ e
  | .parseFailed e => "failed to parse pubspec.yaml: " ++ e
  | .getPackageFailed e => "failed to check existing package: " ++ e
  | .createPackageFailed e => "failed to create package: " ++ e
  | .getUploadersFailed e => "failed to get uploaders: " ++ e
  | .addUploaderFailed e => "failed to add uploader: " ++ e
  | .unauthorized name => "unauthorized to upload to package " ++ name
  | .getVersionsFailed e => "failed to get package versions: " ++ e
  | .versionExists v name => "version " ++ v ++ " already exists for package " ++ name
  | .storeFailed e => "failed to store archive: " ++ e
  | .createVersionFailed e => "failed to create version record: " ++ e

/-! ## Collaborator interfaces (`pkg.Repository`, `storage.Repository`)

State-threading models of the injected repositories: a mutating call either
fails (per-statement atomicity: the pre-call state stands) or returns a
result together with the successor state. -/

/-- `pkg.Repository` over store state `σ`. -/
structure PkgRepo (σ : Type) where
  getPackage : σ → String → Except String (Option Package)
  createPackage : σ → String → Bool → Except String (Package × σ)
  getPackageVersions : σ → Nat → Except String (List PackageVersion)
  createVersion : σ → PackageVersion → Except String (PackageVersion × σ)
  getUploaders : σ → Nat → Except String (List String)
  addUploader : σ → Nat → String → Except String σ

/-- `storage.Repository` over blob-store state `τ`
(`Exists` is named `pathExists`: `Exists` is taken by the logic). -/
structure StorageRepo (τ : Type) where
  store : τ → String → String → Bytes → Except String (String × τ)
  get : τ → String → Except String Bytes
  pathExists : τ → String → Bool
  delete : τ → String → Except String τ

/-! ## Concrete SQLite-backed store
(`sql/schema_sqlite.sql` + `internal/testutil/sqlite_repo.go`) -/

/-- The SQLite database state: `packages`, `package_versions` and
`package_uploaders` rows in insertion order, the AUTOINCREMENT counters and
a logical `created_at` clock.  `versions` is kept newest-first, which
realises `ORDER BY created_at DESC` for states whose stamps decrease along
the list (the `storeWF` invariant below). -/
structure StoreState where
  packages : List Package
  versions : List PackageVersion
  uploaders : List (Nat × String)
  nextPkgId : Nat
  nextVerId : Nat
  clock : Nat
deriving Repr, DecidableEq

def StoreState.empty : StoreState := ⟨[], [], [], 0, 0, 0⟩

/-- `GetPackageUploaders`: rows of `package_uploaders` for the package. -/
def StoreState.uploadersOf (st : StoreState) (pid : Nat) : List String :=
  (st.uploaders.filter fun pu => pu.1 == pid).map fun pu => pu.2

/-- `GetPackageVersions` row set; newest-first under `storeWF`. -/
def StoreState.versionsOf (st : StoreState) (pid : Nat) : List PackageVersion :=
  st.versions.filter fun v => v.packageID == pid

/-- `GetPackage`: single row by unique name, `nil` when absent. -/
def sqliteGetPackage (st : StoreState) (name : String) :
    Except String (Option Package) :=
  .ok (st.packages.find? fun p => p.name == name)

/-- `CreatePackage`: insert, failing on the `UNIQUE` name constraint. -/
def sqliteCreatePackage (st : StoreState) (name : String) (priv : Bool) :
    Except String (Package × StoreState) :=
  if st.packages.any fun p => p.name == name then
    .error "UNIQUE constraint failed: packages.name"
  else
    let pkg : Package := ⟨st.nextPkgId, name, priv⟩
    .ok (pkg, { st with packages := st.packages ++ [pkg],
                        nextPkgId := st.nextPkgId + 1 })

/-- `CreatePackageVersion`: insert with fresh id and `created_at` stamp,
failing on the `UNIQUE(package_id, version)` constraint. -/
def sqliteCreateVersion (st : StoreState) (v : PackageVersion) :
    Except String (PackageVersion × StoreState) :=
  if st.versions.any fun w => w.packageID == v.packageID && w.version == v.version then
    .error "UNIQUE constraint failed: package_versions.package_id, package_versions.version"
  else
    let created : PackageVersion :=
      { v with id := st.nextVerId, retracted := false, downloadCount := 0,
               createdAt := st.clock }
    .ok (created, { st with versions := created :: st.versions,
                            nextVerId := st.nextVerId + 1,
                            clock := st.clock + 1 })

/-- `AddPackageUploader` with `ON CONFLICT DO NOTHING`. -/
def sqliteAddUploader (st : StoreState) (pid : Nat) (uploader : String) :
    Except String StoreState :=
  if st.uploaders.any fun pu => pu.1 == pid && pu.2 == uploader then .ok st
  else .ok { st with uploaders := st.uploaders ++ [(pid, uploader)] }

/-- The `pkg.Repository` implementation backed by `StoreState`. -/
def sqliteRepo : PkgRepo StoreState where
  getPackage := sqliteGetPackage
  createPackage := sqliteCreatePackage
  getPackageVersions := fun st pid => .ok (st.versionsOf pid)
  createVersion := sqliteCreateVersion
  getUploaders := fun st pid => .ok (st.uploadersOf pid)
  addUploader := sqliteAddUploader

/-! ## Concrete local blob store (`internal/repository/storage`,
`localRepository` over an in-memory file system) -/

/-- In-memory file system keyed by path (newest binding first). -/
structure BlobState where
  basePath : String
  files : List (String × Bytes)
deriving Repr, DecidableEq

/-- The storage key `{base}/{name}/{version}/{name}-{version}.tar.gz`
(`localRepository.Store`; `filepath.Join` on clean components). -/
def localPath (basePath packageName version : String) : String :=
  basePath ++ "/" ++ packageName ++ "/" ++ version ++ "/" ++
    packageName ++ "-" ++ version ++ ".tar.gz"

def BlobState.lookup (bs : BlobState) (path : String) : Option Bytes :=
  (bs.files.find? fun f => f.1 == path).map fun f => f.2

/-- The `storage.Repository` implementation backed by `BlobState`. -/
def localRepo : StorageRepo BlobState where
  store := fun bs packageName version data =>
    let path := localPath bs.basePath packageName version
    .ok (path, { bs with files := (path, data) :: bs.files.filter fun f => !(f.1 == path) })
  get := fun bs path =>
    match bs.lookup path with
    | some data => .ok data
    | none => .error "file does not exist"
  pathExists := fun bs path => (bs.lookup path).isSome
  delete := fun bs path =>
    match bs.lookup path with
    | some _ => .ok { bs with files := bs.files.filter fun f => !(f.1 == path) }
    | none => .error "file does not exist"

/-! ## The publish workflow (`packageService.PublishPackage`, pub.go) -/

/-- The injected dependencies of the service (`PackageDependencies` plus the
stdlib collaborators: archive decoder and SHA-256 hex digest). -/
structure PubDeps (σ τ : Type) where
  decodeArchive : Bytes → Except String (List TarEntry)
  parseYAML : String → Except String Pubspec
  pkgRepo : PkgRepo σ
  storage : StorageRepo τ
  sha256Hex : Bytes → String
  port : String

def PubDeps.baseURL (deps : PubDeps σ τ) : String :=
  "http://localhost:" ++ deps.port

/-- `PublishPackage` (pub.go lines 119-214), returning the result together
with the final store and blob-store states. -/
def publishPackage (deps : PubDeps σ τ) (st : σ) (bs : τ)
    (req : PublishRequest) : Except PubErr PublishResponse × σ × τ :=
  match extractFilesFromArchive deps.decodeArchive req.archive with
  | .error e => (.error (.extractFailed e.message), st, bs)
  | .ok (pubspecContent, readme, changelog) =>
    match deps.parseYAML pubspecContent with
    | .error e => (.error (.parseFailed e), st, bs)
    | .ok ps =>
      match deps.pkgRepo.getPackage st ps.name with
      | .error e => (.error (.getPackageFailed e), st, bs)
      | .ok pkgOpt =>
        match
          (match pkgOpt with
           | some pkg => Except.ok (pkg, st)
           | none =>
             match deps.pkgRepo.createPackage st ps.name false with
             | .error e => Except.error (PubErr.createPackageFailed e)
             | .ok (pkg, st1) => Except.ok (pkg, st1)) with
        | .error e => (.error e, st, bs)
        | .ok (pkg, st1) =>
          match deps.pkgRepo.getUploaders st1 pkg.id with
          | .error e => (.error (.getUploadersFailed e), st1, bs)
          | .ok uploaders =>
            match
              (if uploaders.length = 0 then
                match deps.pkgRepo.addUploader st1 pkg.id req.uploader with
                | .error e => Except.error (PubErr.addUploaderFailed e)
                | .ok st2 => Except.ok st2
              else if uploaders.contains req.uploader then Except.ok st1
              else Except.error (PubErr.unauthorized ps.name)) with
            | .error e => (.error e, st1, bs)
            | .ok st2 =>
              match deps.pkgRepo.getPackageVersions st2 pkg.id with
              | .error e => (.error (.getVersionsFailed e), st2, bs)
              | .ok versions =>
                if versions.any fun v => v.version == ps.version then
                  (.error (.versionExists ps.version ps.name), st2, bs)
                else
                  match deps.storage.store bs ps.name ps.version req.archive with
                  | .error e => (.error (.storeFailed e), st2, bs)
                  | .ok (archivePath, bs1) =>
                    let sha256Hash := deps.sha256Hex req.archive
                    let version : PackageVersion :=
                      { id := 0, packageID := pkg.id, version := ps.version,
                        description := some ps.description,
                        pubspecYaml := pubspecContent,
                        readme := readme, changelog := changelog,
                        archivePath := archivePath,
                        archiveSha256 := some sha256Hash,
                        uploader := some req.uploader,
                        retracted := false, downloadCount := 0, createdAt := 0 }
                    match deps.pkgRepo.createVersion st2 version with
                    | .error e =>
                      let bs2 := match deps.storage.delete bs1 archivePath with
                        | .error _ => bs1
                        | .ok bs2 => bs2
                      (.error (.createVersionFailed e), st2, bs2)
                    | .ok (createdVersion, st3) =>
                      (.ok { url := deps.baseURL ++ "/packages/" ++ ps.name ++
                                    "/versions/" ++ createdVersion.version,
                             fields := [("package", ps.name),
                                        ("version", createdVersion.version)] },
                       st3, bs1)

/-! ## Query/Read path (`packageService.GetPackage`, pub.go lines 54-92) -/

/-- `domain.VersionResponse`; the `pubspec` payload carries the parsed
manifest (the source marshals it to a JSON object for the wire). -/
structure VersionResponse where
  version : String
  retracted : Bool
  archiveURL : String
  archiveSha256 : String
  pubspec : Pubspec
deriving Repr, DecidableEq

/-- `domain.PackageResponse`. -/
structure PackageResponse where
  name : String
  latest : VersionResponse
  versions : List VersionResponse
deriving Repr, DecidableEq

/-- The errors of `GetPackage`, one constructor per `fmt.Errorf` site. -/
inductive GetErr where
  | getPackageFailed (e : String)
  | getVersionsFailed (e : String)
  | noVersions
  | convertFailed (e : String)
deriving Repr, DecidableEq

def GetErr.message : GetErr → String
  | .getPackageFailed e => "failed to get package: " ++ e
  | .getVersionsFailed e => "failed to get package versions: " ++ e
  | .noVersions => "package has no versions"
  | .convertFailed e => "failed to convert version response: " ++ e

/-- `stringValue` (pub.go lines 320-325). -/
def stringValue : Option String → String
  | none => ""
  | some s => s

/-- `versionToResponseWithPackage` (pub.go lines 228-254). -/
def versionToResponseWithPackage (deps : PubDeps σ τ) (v : PackageVersion)
    (packageName : String) : Except String VersionResponse :=
  let archiveURL := deps.baseURL ++ "/packages/" ++ packageName ++
    "/versions/" ++ v.version ++ "/download"
  match deps.parseYAML v.pubspecYaml with
  | .error e => .error e
  | .ok parsed =>
    .ok { version := v.version, retracted := v.retracted,
          archiveURL := archiveURL,
          archiveSha256 := stringValue v.archiveSha256, pubspec := parsed }

/-- The conversion loop of `GetPackage`: convert every version, stopping at
the first failure (the Go `for` loop with an early `return`). -/
def convertAll (deps : PubDeps σ τ) (packageName : String) :
    List PackageVersion → Except String (List VersionResponse)
  | [] => .ok []
  | v :: vs =>
    match versionToResponseWithPackage deps v packageName with
    | .error e => .error e
    | .ok r =>
      match convertAll deps packageName vs with
      | .error e => .error e
      | .ok rs => .ok (r :: rs)

/-- `GetPackage` (pub.go lines 54-92): `nil` for an absent package, the
no-versions failure for an empty version list, otherwise the assembled
response with `latest` converted from the head of the newest-first list. -/
def getPackageService (deps : PubDeps σ τ) (st : σ) (name : String) :
    Except GetErr (Option PackageResponse) :=
  match deps.pkgRepo.getPackage st name with
  | .error e => .error (.getPackageFailed e)
  | .ok none => .ok none
  | .ok (some pkg) =>
    match deps.pkgRepo.getPackageVersions st pkg.id with
    | .error e => .error (.getVersionsFailed e)
    | .ok versions =>
      match versions with
      | [] => .error .noVersions
      | v0 :: _ =>
        match convertAll deps pkg.name versions with
        | .error e => .error (.convertFailed e)
        | .ok versionResponses =>
          match versionToResponseWithPackage deps v0 pkg.name with
          | .error e => .error (.convertFailed e)
          | .ok latest =>
            .ok (some { name := pkg.name, latest := latest,
                        versions := versionResponses })

/-! ## HTTP staging handlers (`internal/handlers/publish.go`)

The in-memory `pendingUploads` map is an association list with Go map
assignment/lookup/delete semantics. -/

/-- `fmt.Sprintf("upload_%d", len(archiveData))` — the finalize-token
generator of `UploadPackageHandler` (publish.go line 62). -/
def generateFinalizeToken (archiveData : Bytes) : String :=
  "upload_" ++ toString archiveData.length

abbrev PendingUploads := List (String × PublishRequest)

/-- Go map assignment `pendingUploads[token] = req` (replace-on-collision). -/
def mapSet (m : PendingUploads) (k : String) (v : PublishRequest) :
    PendingUploads :=
  (k, v) :: m.filter fun kv => !(kv.1 == k)

/-- Lookup-then-delete of `FinalizeUploadHandler` (publish.go lines 95-100). -/
def takeAndRemove (m : PendingUploads) (k : String) :
    Option PublishRequest × PendingUploads :=
  match (m.find? fun kv => kv.1 == k).map fun kv => kv.2 with
  | none => (none, m)
  | some v => (some v, m.filter fun kv => !(kv.1 == k))

/-- The staging step of `UploadPackageHandler` (publish.go lines 55-67):
build the request with the constant uploader identity, generate the token,
store the pending upload. -/
def stageUpload (pending : PendingUploads) (archiveData : Bytes) :
    String × PendingUploads :=
  let publishReq : PublishRequest := ⟨archiveData, "authenticated-user"⟩
  let finalizeToken := generateFinalizeToken archiveData
  (finalizeToken, mapSet pending finalizeToken publishReq)

/-- Whole-server state threaded through the handlers. -/
structure SysState where
  store : StoreState
  blobs : BlobState
  pending : PendingUploads
deriving Repr, DecidableEq

/-- Outcome of `FinalizeUploadHandler`. -/
inductive FinalizeResult where
  | uploadNotFound
  | publishFailed (e : PubErr)
  | published (r : PublishResponse)
deriving Repr, DecidableEq

/-- `UploadPackageHandler` (phase 2), returning the finalize URL placed in
the `Location` header. -/
def uploadPackageHandler (baseURL : String) (s : SysState)
    (archiveData : Bytes) : String × SysState :=
  let (finalizeToken, pending1) := stageUpload s.pending archiveData
  (baseURL ++ "/api/packages/versions/newUploadFinish?upload_id=" ++ finalizeToken,
   { s with pending := pending1 })

/-- `FinalizeUploadHandler` (phase 3): atomically remove-and-fetch the
pending upload, then run the publish workflow. -/
def finalizeUploadHandler (deps : PubDeps StoreState BlobState)
    (s : SysState) (uploadID : String) : FinalizeResult × SysState :=
  match takeAndRemove s.pending uploadID with
  | (none, pending1) => (.uploadNotFound, { s with pending := pending1 })
  | (some publishReq, pending1) =>
    match publishPackage deps s.store s.blobs publishReq with
    | (.error e, st1, bs1) => (.publishFailed e, ⟨st1, bs1, pending1⟩)
    | (.ok r, st1, bs1) => (.published r, ⟨st1, bs1, pending1⟩)

/-- Concrete dependency bundle: SQLite store, local blob store, injected
stdlib collaborators. -/
def mkDeps (decode : Bytes → Except String (List TarEntry))
    (unmarshal : String → Except String Pubspec)
    (sha : Bytes → String) (port : String) : PubDeps StoreState BlobState :=
  { decodeArchive := decode, parseYAML := ParseYAML unmarshal,
    pkgRepo := sqliteRepo, storage := localRepo, sha256Hex := sha,
    port := port }

/-- A client operation against the HTTP surface. -/
inductive ClientOp where
  | upload (archiveData : Bytes)
  | finalize (uploadID : String)
deriving Repr, DecidableEq

/-- A sequence of client operations run through the handlers. -/
def runOps (deps : PubDeps StoreState BlobState) (baseURL : String) :
    SysState → List ClientOp → SysState
  | s, [] => s
  | s, ClientOp.upload a :: ops =>
    runOps deps baseURL (uploadPackageHandler baseURL s a).2 ops
  | s, ClientOp.finalize k :: ops =>
    runOps deps baseURL (finalizeUploadHandler deps s k).2 ops

/-- Server boot state: empty database, empty blob store under a base path,
no pending uploads. -/
def initialSys (basePath : String) : SysState :=
  ⟨StoreState.empty, ⟨basePath, []⟩, []⟩

/-! ## Specification-side selectors for the extractor

These follow the spec's words ("only the first such match is kept",
"last-processed wins") and are compared with the source-derived
`extractEntries` in the claim theorems. -/

/-- First entry satisfying `m`, in iteration order. -/
def firstMatch (m : TarEntry → Bool) : List TarEntry → Option TarEntry
  | [] => none
  | e :: es => if m e then some e else firstMatch m es

/-- Last entry satisfying `m`, in iteration order. -/
def lastMatch (m : TarEntry → Bool) : List TarEntry → Option TarEntry
  | [] => none
  | e :: es =>
    match lastMatch m es with
    | some x => some x
    | none => if m e then some e else none

/-- A file entry whose stripped relative name is a root-level
`pubspec.yaml` (case-insensitively, with no remaining path separator). -/
def pubspecMatch (e : TarEntry) : Bool :=
  !e.isDir && (lowerStr (stripEntryName e.name) == "pubspec.yaml") &&
    !(stripEntryName e.name).data.contains '/'

/-- A file entry whose stripped relative name is `readme.md`
(case-insensitively). -/
def readmeMatch (e : TarEntry) : Bool :=
  !e.isDir && (lowerStr (stripEntryName e.name) == "readme.md")

/-- A file entry whose stripped relative name is `changelog.md`
(case-insensitively). -/
def changelogMatch (e : TarEntry) : Bool :=
  !e.isDir && (lowerStr (stripEntryName e.name) == "changelog.md")

/-! ## Store well-formedness

States reachable through the SQLite repository keep ids below the
AUTOINCREMENT counters and version rows newest-first (strictly decreasing
`created_at`), which is what lets the filter model of
`GetPackageVersions ... ORDER BY created_at DESC` stand. -/

/-- Strictly decreasing `createdAt` along the list (newest first). -/
def sortedDescBool : List PackageVersion → Bool
  | [] => true
  | [_] => true
  | a :: b :: t => decide (b.createdAt < a.createdAt) && sortedDescBool (b :: t)

/-- Reachable-state invariant of the SQLite store model. -/
def storeWF (st : StoreState) : Bool :=
  (st.packages.all fun p => decide (p.id < st.nextPkgId)) &&
  (st.uploaders.all fun pu => decide (pu.1 < st.nextPkgId)) &&
  (st.versions.all fun v =>
    decide (v.packageID < st.nextPkgId) && decide (v.createdAt < st.clock)) &&
  sortedDescBool st.versions

/-! ## Specification-side predicates for the version-syntax claim -/

/-- The spec's acceptance condition for one dot-separated segment: it starts
with a digit, or carries a `-` (pre-release) or `+` (build) marker. -/
def versionPartSpec (part : List Char) : Prop :=
  (∃ c rest, part = c :: rest ∧ '0' ≤ c ∧ c ≤ '9') ∨ '-' ∈ part ∨ '+' ∈ part

/-- The spec's acceptance condition for a whole version string: at least
three dot-separated segments, each accepted by `versionPartSpec`. -/
def versionSpecAccepts (v : String) : Prop :=
  3 ≤ (splitOnChar '.' v.data).length ∧
    ∀ part ∈ splitOnChar '.' v.data, versionPartSpec part

/-! ## Concrete fixtures used by witnesses and counterexamples -/

/-- Decoder fixture: every archive decodes to a conventional
`foo-1.0.0/` layout. -/
def cDecode : Bytes → Except String (List TarEntry) := fun _ =>
  .ok [⟨"foo-1.0.0/pubspec.yaml", false, "name: foo\nversion: 1.0.0"⟩,
       ⟨"foo-1.0.0/README.md", false, "# Hello"⟩]

/-- YAML-unmarshaller fixture matching `cDecode`'s manifest text. -/
def cUnmarshal : String → Except String Pubspec := fun s =>
  if s = "name: foo\nversion: 1.0.0" then .ok ⟨"foo", "1.0.0", "d"⟩
  else .error "yaml: unmarshal errors"

/-- Digest fixture. -/
def cSha : Bytes → String := fun _ => "abc123"

def cDeps : PubDeps StoreState BlobState := mkDeps cDecode cUnmarshal cSha "8080"

/-- The version row of `foo 1.0.0` as created by the workflow fixtures. -/
def recFoo : PackageVersion :=
  { id := 0, packageID := 0, version := "1.0.0", description := some "d",
    pubspecYaml := "name: foo\nversion: 1.0.0", readme := some "# Hello",
    changelog := none, archivePath := "/storage/foo/1.0.0/foo-1.0.0.tar.gz",
    archiveSha256 := some "abc123", uploader := some "alice",
    retracted := false, downloadCount := 0, createdAt := 0 }

/-- Store state after `alice` published `foo 1.0.0`. -/
def stFoo : StoreState :=
  { packages := [⟨0, "foo", false⟩], versions := [recFoo],
    uploaders := [(0, "alice")], nextPkgId := 1, nextVerId := 1, clock := 1 }

/-- Blob state after `alice` published `foo 1.0.0`. -/
def bsFoo : BlobState :=
  ⟨"/storage", [("/storage/foo/1.0.0/foo-1.0.0.tar.gz", [1, 2, 3])]⟩

def reqAlice : PublishRequest := ⟨[1, 2, 3], "alice"⟩

def reqBob : PublishRequest := ⟨[1, 2, 3], "bob"⟩

/-- A blob store whose writes always fail (an admissible instantiation of
the external `storage.Repository` collaborator). -/
def failStorage : StorageRepo Unit where
  store := fun _ _ _ _ => .error "disk full"
  get := fun _ _ => .error "file does not exist"
  pathExists := fun _ _ => false
  delete := fun u _ => .ok u

/-- The concrete dependencies with the failing blob store. -/
def cDepsFailStore : PubDeps StoreState Unit :=
  { decodeArchive := cDecode, parseYAML := ParseYAML cUnmarshal,
    pkgRepo := sqliteRepo, storage := failStorage, sha256Hex := cSha,
    port := "8080" }

/-- A package store whose version-create call always fails (admissible
instantiation of the `pkg.Repository` collaborator). -/
def failCreateRepo : PkgRepo StoreState :=
  { sqliteRepo with createVersion := fun _ _ => .error "db down" }

/-- The concrete dependencies with the failing version-create call. -/
def cDepsFailCreate : PubDeps StoreState BlobState :=
  { decodeArchive := cDecode, parseYAML := ParseYAML cUnmarshal,
    pkgRepo := failCreateRepo, storage := localRepo, sha256Hex := cSha,
    port := "8080" }

/-! ## Claim C10 — constant uploader identity through the HTTP handlers -/

/-- Invariant of every server state reachable through the HTTP handlers:
the store is well-formed, every package's authorized-uploader set is
exactly `["authenticated-user"]`, and every pending upload carries the
constant uploader identity. -/
def authenticatedInv (s : SysState) : Prop :=
  storeWF s.store = true ∧
  (∀ p ∈ s.store.packages,
    s.store.uploadersOf p.id = ["authenticated-user"]) ∧
  (∀ kv ∈ s.pending, kv.2.uploader = "authenticated-user")

/-! ## Theorems -/

theorem splitOnChar_ne_nil (sep : Char) (l : List Char) : splitOnChar sep l ≠ [] := by
  cases l with
  | nil => simp [splitOnChar]
  | cons c cs =>
    simp only [splitOnChar]
    split
    · simp
    · split <;> simp_all

theorem leadsList_self_append (pat r : List Char) : leadsList pat (pat ++ r) = true := by
  induction pat with
  | nil => rfl
  | cons a as ih => simp [leadsList, ih]

theorem listContainsSub_append (pat b : List Char) :
    ∀ a, listContainsSub pat (a ++ (pat ++ b)) = true := by
  intro a
  induction a with
  | nil =>
    cases h : pat ++ b with
    | nil =>
      have hp : pat = [] := by
        cases pat with
        | nil => rfl
        | cons x xs => simp at h
      simp [hp, listContainsSub, List.isEmpty]
    | cons c cs =>
      simp only [List.nil_append, h, listContainsSub]
      rw [← h, leadsList_self_append]
      simp
  | cons c cs ih =>
    simp [listContainsSub, ih]

theorem str_data_append (s t : String) : (s ++ t).data = s.data ++ t.data := by
  cases s; cases t; rfl

theorem extractStep_readme (acc : ExtractAcc) (e : TarEntry) :
    (extractStep acc e).readme =
      if readmeMatch e then some e.content else acc.readme := by
  cases hd : e.isDir with
  | true => simp [extractStep, readmeMatch, hd]
  | false =>
    by_cases h1 : lowerStr (stripEntryName e.name) = "pubspec.yaml"
    · have hne : readmeMatch e = false := by simp [readmeMatch, h1]
      simp [extractStep, hd, h1, hne]
      split <;> simp
    · by_cases h2 : lowerStr (stripEntryName e.name) = "readme.md"
      · simp [extractStep, readmeMatch, hd, h1, h2]
      · by_cases h3 : lowerStr (stripEntryName e.name) = "changelog.md" <;>
          simp [extractStep, readmeMatch, hd, h1, h2, h3]

theorem extractStep_changelog (acc : ExtractAcc) (e : TarEntry) :
    (extractStep acc e).changelog =
      if changelogMatch e then some e.content else acc.changelog := by
  cases hd : e.isDir with
  | true => simp [extractStep, changelogMatch, hd]
  | false =>
    by_cases h1 : lowerStr (stripEntryName e.name) = "pubspec.yaml"
    · have hne : changelogMatch e = false := by simp [changelogMatch, h1]
      simp [extractStep, hd, h1, hne]
      split <;> simp
    · by_cases h2 : lowerStr (stripEntryName e.name) = "readme.md"
      · simp [extractStep, changelogMatch, hd, h1, h2]
      · by_cases h3 : lowerStr (stripEntryName e.name) = "changelog.md" <;>
          simp [extractStep, changelogMatch, hd, h1, h2, h3]

theorem extractStep_pubspec (acc : ExtractAcc) (e : TarEntry) :
    (extractStep acc e).foundPubspec =
        (acc.foundPubspec || (!acc.foundPubspec && pubspecMatch e)) ∧
      (extractStep acc e).pubspecContent =
        (if acc.foundPubspec = false ∧ pubspecMatch e = true then e.content
         else acc.pubspecContent) := by
  cases hd : e.isDir with
  | true => simp [extractStep, pubspecMatch, hd]
  | false =>
    by_cases h1 : lowerStr (stripEntryName e.name) = "pubspec.yaml"
    · by_cases hf : acc.foundPubspec <;>
        by_cases hc : (stripEntryName e.name).data.contains '/' = false <;>
          simp_all [extractStep, pubspecMatch, hd, h1]
    · have hm : pubspecMatch e = false := by simp [pubspecMatch, h1]
      by_cases h2 : lowerStr (stripEntryName e.name) = "readme.md" <;>
        by_cases h3 : lowerStr (stripEntryName e.name) = "changelog.md" <;>
          simp [extractStep, hd, h1, h2, h3, hm]

theorem foldl_extract_readme (es : List TarEntry) : ∀ acc : ExtractAcc,
    (es.foldl extractStep acc).readme =
      match lastMatch readmeMatch es with
      | some e => some e.content
      | none => acc.readme := by
  induction es with
  | nil => intro acc; rfl
  | cons e es ih =>
    intro acc
    simp only [List.foldl_cons, ih, lastMatch]
    cases h : lastMatch readmeMatch es with
    | some x => simp
    | none =>
      rw [extractStep_readme]
      by_cases hm : readmeMatch e <;> simp [hm]

theorem foldl_extract_changelog (es : List TarEntry) : ∀ acc : ExtractAcc,
    (es.foldl extractStep acc).changelog =
      match lastMatch changelogMatch es with
      | some e => some e.content
      | none => acc.changelog := by
  induction es with
  | nil => intro acc; rfl
  | cons e es ih =>
    intro acc
    simp only [List.foldl_cons, ih, lastMatch]
    cases h : lastMatch changelogMatch es with
    | some x => simp
    | none =>
      rw [extractStep_changelog]
      by_cases hm : changelogMatch e <;> simp [hm]

theorem foldl_extract_found (es : List TarEntry) : ∀ acc : ExtractAcc,
    acc.foundPubspec = true →
    (es.foldl extractStep acc).foundPubspec = true ∧
      (es.foldl extractStep acc).pubspecContent = acc.pubspecContent := by
  induction es with
  | nil => intro acc h; exact ⟨h, rfl⟩
  | cons e es ih =>
    intro acc h
    simp only [List.foldl_cons]
    have hstep := extractStep_pubspec acc e
    have h1 : (extractStep acc e).foundPubspec = true := by
      rw [hstep.1, h]; rfl
    have h2 : (extractStep acc e).pubspecContent = acc.pubspecContent := by
      rw [hstep.2]; simp [h]
    rcases ih (extractStep acc e) h1 with ⟨ha, hb⟩
    exact ⟨ha, by rw [hb, h2]⟩

theorem foldl_extract_pubspec (es : List TarEntry) : ∀ acc : ExtractAcc,
    acc.foundPubspec = false →
    ((es.foldl extractStep acc).foundPubspec,
      (es.foldl extractStep acc).pubspecContent) =
      match firstMatch pubspecMatch es with
      | some e => (true, e.content)
      | none => (false, acc.pubspecContent) := by
  induction es with
  | nil => intro acc h; simp [firstMatch, h]
  | cons e es ih =>
    intro acc h
    simp only [List.foldl_cons, firstMatch]
    have hstep := extractStep_pubspec acc e
    by_cases hm : pubspecMatch e = true
    · have h1 : (extractStep acc e).foundPubspec = true := by
        rw [hstep.1, h, hm]; rfl
      have h2 : (extractStep acc e).pubspecContent = e.content := by
        rw [hstep.2]; simp [h, hm]
      rcases foldl_extract_found es (extractStep acc e) h1 with ⟨ha, hb⟩
      simp [hm, ha, hb, h2]
    · have hmf : pubspecMatch e = false := by simp_all
      have h1 : (extractStep acc e).foundPubspec = false := by
        rw [hstep.1, h, hmf]; rfl
      have h2 : (extractStep acc e).pubspecContent = acc.pubspecContent := by
        rw [hstep.2]; simp [hmf]
      rw [ih (extractStep acc e) h1, h2]
      simp [hmf]

/-- Full characterisation of the extraction loop: the manifest is the first
root-level `pubspec.yaml` match, README/CHANGELOG are the last matches, and
the loop fails exactly when no manifest match exists. -/
theorem extractEntries_characterisation (entries : List TarEntry) :
    extractEntries entries =
      match firstMatch pubspecMatch entries with
      | some e =>
        .ok (e.content, (lastMatch readmeMatch entries).map TarEntry.content,
             (lastMatch changelogMatch entries).map TarEntry.content)
      | none => .error .manifestNotFound := by
  have hp := foldl_extract_pubspec entries ⟨"", false, none, none⟩ rfl
  have hr := foldl_extract_readme entries ⟨"", false, none, none⟩
  have hc := foldl_extract_changelog entries ⟨"", false, none, none⟩
  simp only [extractEntries]
  cases hf : firstMatch pubspecMatch entries with
  | none =>
    rw [hf] at hp
    simp only [Prod.mk.injEq] at hp
    simp [hp.1]
  | some e =>
    rw [hf] at hp
    simp only [Prod.mk.injEq] at hp
    simp only [hp.1, hp.2, hr, hc, if_true]
    cases lastMatch readmeMatch entries <;>
      cases lastMatch changelogMatch entries <;> simp

theorem sortedDescBool_cons (a : PackageVersion) (l : List PackageVersion)
    (ha : ∀ v ∈ l, v.createdAt < a.createdAt) (hl : sortedDescBool l = true) :
    sortedDescBool (a :: l) = true := by
  cases l with
  | nil => rfl
  | cons b t =>
    simp only [sortedDescBool, Bool.and_eq_true, decide_eq_true_eq]
    exact ⟨ha b (by simp), hl⟩

theorem sortedDescBool_pairwise :
    ∀ l : List PackageVersion, sortedDescBool l = true →
      l.Pairwise fun a b => b.createdAt < a.createdAt := by
  intro l
  induction l with
  | nil => intro _; exact List.Pairwise.nil
  | cons a t ih =>
    intro h
    cases t with
    | nil => exact List.pairwise_singleton _ _
    | cons b u =>
      simp only [sortedDescBool, Bool.and_eq_true, decide_eq_true_eq] at h
      have hp := ih h.2
      refine List.Pairwise.cons ?_ hp
      intro x hx
      rcases hx with _ | hx
      · exact h.1
      · have := (List.pairwise_cons.mp hp).1 x (by assumption)
        exact this.trans h.1

section PublishRuns

variable (decode : Bytes → Except String (List TarEntry))
variable (unmarshal : String → Except String Pubspec)
variable (sha : Bytes → String) (port : String)
variable (st : StoreState) (bs : BlobState) (req : PublishRequest)
variable (content : String) (rm cl : Option String) (ps : Pubspec) (pkg : Package)

/-- Publishing to an existing package by an uploader outside its non-empty
authorized set stops at the authorization gate with the state untouched. -/
theorem publish_existing_unauthorized
    (hex : extractFilesFromArchive decode req.archive = .ok (content, rm, cl))
    (hps : ParseYAML unmarshal content = .ok ps)
    (hfind : st.packages.find? (fun p => p.name == ps.name) = some pkg)
    (hne : st.uploadersOf pkg.id ≠ [])
    (hmem : (st.uploadersOf pkg.id).contains req.uploader = false) :
    publishPackage (mkDeps decode unmarshal sha port) st bs req =
      (.error (.unauthorized ps.name), st, bs) := by
  have hlen : ¬((st.uploadersOf pkg.id).length = 0) := by
    simp [List.length_eq_zero]; exact hne
  simp only [publishPackage, mkDeps, hex, hps, sqliteRepo, sqliteGetPackage,
    hfind, if_neg hlen, hmem, Bool.false_eq_true, if_false]

/-- Publishing a version string that already exists for the package, by an
authorized uploader, stops at the duplicate-version gate with the state
untouched. -/
theorem publish_existing_duplicate
    (hex : extractFilesFromArchive decode req.archive = .ok (content, rm, cl))
    (hps : ParseYAML unmarshal content = .ok ps)
    (hfind : st.packages.find? (fun p => p.name == ps.name) = some pkg)
    (hne : st.uploadersOf pkg.id ≠ [])
    (hmem : (st.uploadersOf pkg.id).contains req.uploader = true)
    (hdup : (st.versionsOf pkg.id).any (fun v => v.version == ps.version) = true) :
    publishPackage (mkDeps decode unmarshal sha port) st bs req =
      (.error (.versionExists ps.version ps.name), st, bs) := by
  have hlen : ¬((st.uploadersOf pkg.id).length = 0) := by
    simp [List.length_eq_zero]; exact hne
  simp only [publishPackage, mkDeps, hex, hps, sqliteRepo, sqliteGetPackage,
    hfind, if_neg hlen, hmem, if_true, hdup]

/-- Publishing a fresh version of an existing package by an authorized
uploader succeeds: the blob is written under the derived key and the
version row is inserted newest-first with the current clock stamp. -/
theorem publish_existing_ok
    (hex : extractFilesFromArchive decode req.archive = .ok (content, rm, cl))
    (hps : ParseYAML unmarshal content = .ok ps)
    (hfind : st.packages.find? (fun p => p.name == ps.name) = some pkg)
    (hne : st.uploadersOf pkg.id ≠ [])
    (hmem : (st.uploadersOf pkg.id).contains req.uploader = true)
    (hdup : (st.versionsOf pkg.id).any (fun v => v.version == ps.version) = false) :
    publishPackage (mkDeps decode unmarshal sha port) st bs req =
      (.ok { url := "http://localhost:" ++ port ++ "/packages/" ++ ps.name ++
                    "/versions/" ++ ps.version,
             fields := [("package", ps.name), ("version", ps.version)] },
       { st with
           versions :=
             { id := st.nextVerId, packageID := pkg.id, version := ps.version,
               description := some ps.description, pubspecYaml := content,
               readme := rm, changelog := cl,
               archivePath := localPath bs.basePath ps.name ps.version,
               archiveSha256 := some (sha req.archive),
               uploader := some req.uploader, retracted := false,
               downloadCount := 0, createdAt := st.clock } :: st.versions,
           nextVerId := st.nextVerId + 1, clock := st.clock + 1 },
       { bs with
           files := (localPath bs.basePath ps.name ps.version, req.archive) ::
             bs.files.filter fun f =>
               !(f.1 == localPath bs.basePath ps.name ps.version) }) := by
  have hlen : ¬((st.uploadersOf pkg.id).length = 0) := by
    simp [List.length_eq_zero]; exact hne
  have hglobal : st.versions.any
      (fun w => w.packageID == pkg.id && w.version == ps.version) = false := by
    have := List.any_filter (l := st.versions)
      (p := fun w => w.packageID == pkg.id) (q := fun w => w.version == ps.version)
    rw [← this]
    exact hdup
  simp only [publishPackage, mkDeps, hex, hps, sqliteRepo, sqliteGetPackage,
    hfind, if_neg hlen, hmem, if_true, hdup, Bool.false_eq_true, if_false,
    localRepo, sqliteCreateVersion, hglobal, PubDeps.baseURL]

/-- Publishing a brand-new package name: the package row is created, the
uploader becomes its sole authorized uploader, the blob is written and the
version row inserted.  The freshness hypotheses on `nextPkgId` hold in any
`storeWF` state. -/
theorem publish_new_ok
    (hex : extractFilesFromArchive decode req.archive = .ok (content, rm, cl))
    (hps : ParseYAML unmarshal content = .ok ps)
    (hfind : st.packages.find? (fun p => p.name == ps.name) = none)
    (hupl : ∀ pu ∈ st.uploaders, ¬(pu.1 = st.nextPkgId))
    (hver : ∀ v ∈ st.versions, ¬(v.packageID = st.nextPkgId)) :
    publishPackage (mkDeps decode unmarshal sha port) st bs req =
      (.ok { url := "http://localhost:" ++ port ++ "/packages/" ++ ps.name ++
                    "/versions/" ++ ps.version,
             fields := [("package", ps.name), ("version", ps.version)] },
       { packages := st.packages ++ [⟨st.nextPkgId, ps.name, false⟩],
         versions :=
           { id := st.nextVerId, packageID := st.nextPkgId, version := ps.version,
             description := some ps.description, pubspecYaml := content,
             readme := rm, changelog := cl,
             archivePath := localPath bs.basePath ps.name ps.version,
             archiveSha256 := some (sha req.archive),
             uploader := some req.uploader, retracted := false,
             downloadCount := 0, createdAt := st.clock } :: st.versions,
         uploaders := st.uploaders ++ [(st.nextPkgId, req.uploader)],
         nextPkgId := st.nextPkgId + 1, nextVerId := st.nextVerId + 1,
         clock := st.clock + 1 },
       { bs with
           files := (localPath bs.basePath ps.name ps.version, req.archive) ::
             bs.files.filter fun f =>
               !(f.1 == localPath bs.basePath ps.name ps.version) }) := by
  have hnoname : st.packages.any (fun p => p.name == ps.name) = false := by
    rw [List.find?_eq_none] at hfind
    exact List.any_eq_false.mpr hfind
  have hupl2 : st.uploaders.filter (fun pu => pu.1 == st.nextPkgId) = [] :=
    List.filter_eq_nil_iff.mpr (by simpa using hupl)
  have hupl3 : st.uploaders.any
      (fun pu => pu.1 == st.nextPkgId && pu.2 == req.uploader) = false := by
    refine List.any_eq_false.mpr ?_
    intro pu hmem2
    simp only [Bool.and_eq_true, beq_iff_eq, not_and]
    intro h1
    exact absurd h1 (hupl pu hmem2)
  have hver2 : st.versions.filter (fun v => v.packageID == st.nextPkgId) = [] :=
    List.filter_eq_nil_iff.mpr (by simpa using hver)
  have hver3 : st.versions.any
      (fun w => w.packageID == st.nextPkgId && w.version == ps.version) = false := by
    refine List.any_eq_false.mpr ?_
    intro v hmem2
    simp only [Bool.and_eq_true, beq_iff_eq, not_and]
    intro h1
    exact absurd h1 (hver v hmem2)
  simp only [publishPackage, mkDeps, hex, hps, sqliteRepo, sqliteGetPackage,
    hfind, sqliteCreatePackage, hnoname, Bool.false_eq_true, if_false,
    StoreState.uploadersOf, StoreState.versionsOf, hupl2, hupl3, hver2, hver3,
    List.map_nil, List.length_nil, if_true, sqliteAddUploader,
    List.any_nil, localRepo, sqliteCreateVersion, PubDeps.baseURL]

end PublishRuns

theorem versionPartOk_iff (part : List Char) :
    versionPartOk part = true ↔ versionPartSpec part := by
  cases part with
  | nil =>
    simp [versionPartOk, versionPartSpec]
  | cons c rest =>
    simp only [versionPartOk, versionPartSpec]
    by_cases h : (c :: rest).contains '-' = true ∨ (c :: rest).contains '+' = true
    · simp only [if_pos h, true_iff]
      rcases h with h | h
      · exact Or.inr (Or.inl (by simpa using h))
      · exact Or.inr (Or.inr (by simpa using h))
    · rw [if_neg h]
      push_neg at h
      have h1 : ¬('-' ∈ c :: rest) := by
        intro hm; exact absurd (by simpa using hm) (by simpa using h.1)
      have h2 : ¬('+' ∈ c :: rest) := by
        intro hm; exact absurd (by simpa using hm) (by simpa using h.2)
      simp only [decide_eq_true_eq]
      constructor
      · intro hd; exact Or.inl ⟨c, rest, rfl, hd⟩
      · intro hd
        rcases hd with ⟨c', rest', heq, hd⟩ | hm | hm
        · cases heq; exact hd
        · exact absurd hm h1
        · exact absurd hm h2

theorem isValidVersion_iff (v : String) :
    isValidVersion v = true ↔ versionSpecAccepts v := by
  unfold isValidVersion versionSpecAccepts
  by_cases h0 : v.data.length = 0
  · have hv : v.data = [] := List.length_eq_zero.mp h0
    rw [if_pos h0, hv]
    simp [splitOnChar]
  · rw [if_neg h0]
    by_cases h3 : (splitOnChar '.' v.data).length < 3
    · rw [if_pos h3]
      simp only [Bool.false_eq_true, false_iff, not_and]
      intro hge
      omega
    · rw [if_neg h3]
      simp only [List.all_eq_true, versionPartOk_iff]
      constructor
      · intro hall; exact ⟨by omega, hall⟩
      · intro hall; exact hall.2

/-! ## Error-message substring lemmas -/

theorem versionExists_contains_already (v n : String) :
    strContainsSub (PubErr.message (.versionExists v n)) "already exists" = true := by
  have hmsg : (PubErr.message (.versionExists v n)).data
      = ("version ".data ++ v.data ++ " ".data) ++
        ("already exists".data ++ (" for package ".data ++ n.data)) := by
    simp only [PubErr.message, str_data_append]
    simp [List.append_assoc]
  unfold strContainsSub
  rw [hmsg]
  exact listContainsSub_append _ _ _

theorem unauthorized_contains_unauthorized (n : String) :
    strContainsSub (PubErr.message (.unauthorized n)) "unauthorized" = true := by
  have hmsg : (PubErr.message (.unauthorized n)).data
      = ([] : List Char) ++
        ("unauthorized".data ++ (" to upload to package ".data ++ n.data)) := by
    simp only [PubErr.message, str_data_append]
    simp [List.append_assoc]
  unfold strContainsSub
  rw [hmsg]
  exact listContainsSub_append _ _ _

/-! ## Claim C8 — README/CHANGELOG capture -/

/-- **C8.** During extraction, entries whose stripped relative name
case-insensitively equals `readme.md` / `changelog.md` are captured
verbatim with the last-processed entry winning on duplicates, while only
the first root-level `pubspec.yaml` match is kept: `extractEntries` returns
exactly the first `pubspecMatch` entry's content together with the last
`readmeMatch`/`changelogMatch` entries' contents. -/
theorem claim8_readme_changelog_capture (entries : List TarEntry) :
    extractEntries entries =
      match firstMatch pubspecMatch entries with
      | some e =>
        .ok (e.content, (lastMatch readmeMatch entries).map TarEntry.content,
             (lastMatch changelogMatch entries).map TarEntry.content)
      | none => .error .manifestNotFound :=
  extractEntries_characterisation entries

/-! ## Claim C3 — manifest-root enforcement (corrected) -/

/-- **C3, counterexample.** An archive containing `sub/pubspec.yaml` and no
root-level `pubspec.yaml` does *not* fail: the extractor strips the first
path segment, treats the entry as the root manifest, and succeeds. -/
theorem claim3_counterexample :
    extractEntries [⟨"sub/pubspec.yaml", false, "name: x"⟩] =
        .ok ("name: x", none, none) ∧
      extractEntries [⟨"sub/pubspec.yaml", false, "name: x"⟩] ≠
        .error .manifestNotFound := by
  constructor
  · rfl
  · intro h
    exact Except.noConfusion
      ((show extractEntries [⟨"sub/pubspec.yaml", false, "name: x"⟩] =
          Except.ok ("name: x", none, none) from rfl).symm.trans h)

theorem firstMatch_pubspec_none (entries : List TarEntry)
    (h : ∀ e ∈ entries, e.isDir = false →
      lowerStr (stripEntryName e.name) ≠ "pubspec.yaml") :
    firstMatch pubspecMatch entries = none := by
  induction entries with
  | nil => rfl
  | cons e es ih =>
    have hm : pubspecMatch e = false := by
      cases hd : e.isDir with
      | true => simp [pubspecMatch, hd]
      | false =>
        have := h e (by simp) hd
        simp [pubspecMatch, hd, this]
    simp only [firstMatch, hm, Bool.false_eq_true, if_false]
    exact ih fun e' he' => h e' (by simp [he'])

/-- **C3, amended.** Extraction fails with `ManifestNotFoundError` exactly
when no file entry's stripped relative name case-insensitively equals
`pubspec.yaml`; an entry one directory deep such as `sub/pubspec.yaml` has
its first segment stripped and is accepted, but an entry nested two or more
directories deep (e.g. `a/sub/pubspec.yaml`) still carries a separator
after stripping and extraction fails. -/
theorem claim3_manifest_root_amended (entries : List TarEntry)
    (h : ∀ e ∈ entries, e.isDir = false →
      lowerStr (stripEntryName e.name) ≠ "pubspec.yaml") :
    extractEntries entries = .error .manifestNotFound := by
  have hc := extractEntries_characterisation entries
  rw [firstMatch_pubspec_none entries h] at hc
  exact hc

/-- **C3, witness.** A pubspec two directories deep is rejected. -/
theorem claim3_witness :
    extractEntries [⟨"a/sub/pubspec.yaml", false, "name: x"⟩] =
      .error .manifestNotFound :=
  claim3_manifest_root_amended _ (by decide)

/-! ## Claim C9 — version-syntax validation -/

/-- **C9.** `isValidVersion` accepts a version string iff splitting on `.`
yields at least three segments each of which starts with a digit or carries
a `-`/`+` marker; and every pubspec whose version string fails the check is
rejected by `ValidatePubspec`. -/
theorem claim9_version_check :
    (∀ v : String, isValidVersion v = true ↔ versionSpecAccepts v) ∧
    (∀ ps : Pubspec, isValidVersion ps.version = false →
      ∃ e, ValidatePubspec ps = .error e) := by
  constructor
  · exact isValidVersion_iff
  · intro ps h
    unfold ValidatePubspec
    split_ifs with h1 h2 h3
    · exact ⟨_, rfl⟩
    · exact ⟨_, rfl⟩
    · exact ⟨_, rfl⟩
    · exact ⟨_, rfl⟩

/-- **C9, witness.** `1.0` has two segments: rejected by the syntax check
and by `ValidatePubspec`. -/
theorem claim9_witness :
    (isValidVersion "1.0.0" = true ↔ versionSpecAccepts "1.0.0") ∧
      (∃ e, ValidatePubspec ⟨"a", "1.0", ""⟩ = .error e) :=
  ⟨claim9_version_check.1 "1.0.0",
   claim9_version_check.2 ⟨"a", "1.0", ""⟩ (by decide)⟩

/-! ## Claim C5 — finalize-token uniqueness (code bug) -/

/-- **C5.** The finalize token is derived solely from the payload length,
so two distinct uploads of equal length collide: both `[0]` and `[1]` get
token `upload_1`, and staging the second replaces the first client's
pending upload. -/
theorem claim5_token_collision :
    generateFinalizeToken [0] = generateFinalizeToken [1] ∧
      ([0] : Bytes) ≠ [1] ∧
      (stageUpload (stageUpload [] [0]).2 [1]).2 =
        [("upload_1", ⟨[1], "authenticated-user"⟩)] := by
  refine ⟨rfl, by decide, ?_⟩
  decide

/-! ## Claim C1 — version immutability (corrected) -/

/-- **C1, counterexample.** With `foo 1.0.0` already published by `alice`,
a later publish attempt carrying the same version by uploader `bob` fails
with the *unauthorized* error, whose message does not contain
"already exists" — refuting the claim that any later publish attempt for
the pair fails with `VersionAlreadyExistsError`. -/
theorem claim1_counterexample :
    recFoo ∈ stFoo.versions ∧ recFoo.version = "1.0.0" ∧
      (publishPackage cDeps stFoo bsFoo reqBob).1 =
        .error (.unauthorized "foo") ∧
      strContainsSub (PubErr.message (.unauthorized "foo"))
        "already exists" = false := by
  refine ⟨by decide, rfl, by decide, by decide⟩

theorem storeWF_spec (st : StoreState) (h : storeWF st = true) :
    (∀ p ∈ st.packages, p.id < st.nextPkgId) ∧
    (∀ pu ∈ st.uploaders, pu.1 < st.nextPkgId) ∧
    (∀ v ∈ st.versions, v.packageID < st.nextPkgId ∧ v.createdAt < st.clock) ∧
    sortedDescBool st.versions = true := by
  unfold storeWF at h
  simp only [Bool.and_eq_true] at h
  refine ⟨?_, ?_, ?_, h.2⟩
  · intro p hp
    simpa using List.all_eq_true.mp h.1.1.1 p hp
  · intro pu hpu
    simpa using List.all_eq_true.mp h.1.1.2 pu hpu
  · intro v hv
    simpa using List.all_eq_true.mp h.1.2 v hv

/-- **C1, amended.** Once a publish of `(P, V)` has succeeded, any later
publish attempt for `P` whose manifest carries exactly version `V`, made by
an uploader authorized for `P`, fails with `VersionAlreadyExistsError`,
its message contains "already exists", and the store (hence the stored
version record for `(P, V)`) is unchanged.  (An attempt by an unauthorized
uploader instead fails with `UnauthorizedUploaderError`, also leaving the
record unchanged.) -/
theorem claim1_version_immutable_authorized
    (decode : Bytes → Except String (List TarEntry))
    (unmarshal : String → Except String Pubspec) (sha : Bytes → String)
    (port : String) (st : StoreState) (bs : BlobState) (req : PublishRequest)
    (content : String) (rm cl : Option String) (ps : Pubspec) (pkg : Package)
    (vrec : PackageVersion)
    (hex : extractFilesFromArchive decode req.archive = .ok (content, rm, cl))
    (hps : ParseYAML unmarshal content = .ok ps)
    (hfind : st.packages.find? (fun p => p.name == ps.name) = some pkg)
    (hauth : req.uploader ∈ st.uploadersOf pkg.id)
    (hrecmem : vrec ∈ st.versions) (hrecpid : vrec.packageID = pkg.id)
    (hrecver : vrec.version = ps.version) :
    publishPackage (mkDeps decode unmarshal sha port) st bs req =
      (.error (.versionExists ps.version ps.name), st, bs) ∧
    strContainsSub (PubErr.message (.versionExists ps.version ps.name))
      "already exists" = true := by
  have hne : st.uploadersOf pkg.id ≠ [] := by
    intro h; rw [h] at hauth; exact List.not_mem_nil _ hauth
  have hmem : (st.uploadersOf pkg.id).contains req.uploader = true := by
    simpa using hauth
  have hdup : (st.versionsOf pkg.id).any (fun v => v.version == ps.version) = true := by
    refine List.any_eq_true.mpr ⟨vrec, ?_, ?_⟩
    · exact List.mem_filter.mpr ⟨hrecmem, by simp [hrecpid]⟩
    · simp [hrecver]
  exact ⟨publish_existing_duplicate decode unmarshal sha port st bs req
           content rm cl ps pkg hex hps hfind hne hmem hdup,
         versionExists_contains_already _ _⟩

/-- **C1, witness.** A second publish of `foo 1.0.0` by the authorized
uploader `alice` fails with the duplicate-version error and leaves the
store untouched. -/
theorem claim1_witness :
    publishPackage (mkDeps cDecode cUnmarshal cSha "8080") stFoo bsFoo reqAlice =
      (.error (.versionExists "1.0.0" "foo"), stFoo, bsFoo) ∧
    strContainsSub (PubErr.message (.versionExists "1.0.0" "foo"))
      "already exists" = true :=
  claim1_version_immutable_authorized cDecode cUnmarshal cSha "8080" stFoo
    bsFoo reqAlice "name: foo\nversion: 1.0.0" (some "# Hello") none
    ⟨"foo", "1.0.0", "d"⟩ ⟨0, "foo", false⟩ recFoo (by decide) (by decide)
    (by decide) (by decide) (by decide) rfl rfl

/-! ## Claim C2 — first-publish authorization -/

/-- **C2.** Publishing a brand-new package name with uploader `U` succeeds
and records `U` as the package's sole authorized uploader; a subsequent
publish under the same name by any uploader `U' ≠ U` fails with
`UnauthorizedUploaderError`, whose message contains "unauthorized". -/
theorem claim2_first_publish_authorization
    (decode : Bytes → Except String (List TarEntry))
    (unmarshal : String → Except String Pubspec) (sha : Bytes → String)
    (port : String) (st : StoreState) (bs : BlobState)
    (reqU reqU' : PublishRequest) (content content' : String)
    (rm cl rm' cl' : Option String) (ps ps' : Pubspec)
    (hex : extractFilesFromArchive decode reqU.archive = .ok (content, rm, cl))
    (hps : ParseYAML unmarshal content = .ok ps)
    (hfind : st.packages.find? (fun p => p.name == ps.name) = none)
    (hwf : storeWF st = true)
    (hex' : extractFilesFromArchive decode reqU'.archive = .ok (content', rm', cl'))
    (hps' : ParseYAML unmarshal content' = .ok ps')
    (hname' : ps'.name = ps.name)
    (hdiff : reqU'.uploader ≠ reqU.uploader) :
    ∃ resp st1 bs1,
      publishPackage (mkDeps decode unmarshal sha port) st bs reqU =
        (.ok resp, st1, bs1) ∧
      (∃ pkg, st1.packages.find? (fun p => p.name == ps.name) = some pkg ∧
        st1.uploadersOf pkg.id = [reqU.uploader]) ∧
      publishPackage (mkDeps decode unmarshal sha port) st1 bs1 reqU' =
        (.error (.unauthorized ps'.name), st1, bs1) ∧
      strContainsSub (PubErr.message (.unauthorized ps'.name))
        "unauthorized" = true := by
  obtain ⟨hwp, hwu, hwv, hws⟩ := storeWF_spec st hwf
  have hupl : ∀ pu ∈ st.uploaders, ¬(pu.1 = st.nextPkgId) := by
    intro pu hm h; have := hwu pu hm; omega
  have hver : ∀ v ∈ st.versions, ¬(v.packageID = st.nextPkgId) := by
    intro v hm h; have := hwv v hm; omega
  have hnil : st.uploaders.filter (fun pu => pu.1 == st.nextPkgId) = [] :=
    List.filter_eq_nil_iff.mpr (by simpa using hupl)
  have h1 := publish_new_ok decode unmarshal sha port st bs reqU content rm cl
    ps hex hps hfind hupl hver
  refine ⟨_, _, _, h1,
    ⟨⟨st.nextPkgId, ps.name, false⟩, ?_, ?_⟩, ?_,
    unauthorized_contains_unauthorized _⟩
  · rw [List.find?_append, hfind]
    simp
  · simp only [StoreState.uploadersOf, List.filter_append, hnil]
    simp
  · refine publish_existing_unauthorized decode unmarshal sha port _ _ reqU'
      content' rm' cl' ps' ⟨st.nextPkgId, ps.name, false⟩ hex' hps' ?_ ?_ ?_
    · rw [hname', List.find?_append, hfind]
      simp
    · simp only [StoreState.uploadersOf, List.filter_append, hnil]
      simp
    · simp only [StoreState.uploadersOf, List.filter_append, hnil]
      simp [hdiff]

/-- **C2, witness.** From the empty store, `alice` publishes `foo 1.0.0`
and becomes the sole uploader; `bob`'s follow-up publish is rejected as
unauthorized. -/
theorem claim2_witness :
    ∃ resp st1 bs1,
      publishPackage (mkDeps cDecode cUnmarshal cSha "8080")
        StoreState.empty ⟨"/storage", []⟩ reqAlice = (.ok resp, st1, bs1) ∧
      (∃ pkg, st1.packages.find? (fun p => p.name == "foo") = some pkg ∧
        st1.uploadersOf pkg.id = [reqAlice.uploader]) ∧
      publishPackage (mkDeps cDecode cUnmarshal cSha "8080") st1 bs1 reqBob =
        (.error (.unauthorized "foo"), st1, bs1) ∧
      strContainsSub (PubErr.message (.unauthorized "foo"))
        "unauthorized" = true :=
  claim2_first_publish_authorization cDecode cUnmarshal cSha "8080"
    StoreState.empty ⟨"/storage", []⟩ reqAlice reqBob
    "name: foo\nversion: 1.0.0" "name: foo\nversion: 1.0.0"
    (some "# Hello") none (some "# Hello") none
    ⟨"foo", "1.0.0", "d"⟩ ⟨"foo", "1.0.0", "d"⟩
    (by decide) (by decide) (by decide) (by decide) (by decide) (by decide)
    rfl (by decide)

/-! ## Claim C4 — no Store mutation before the blob write (corrected) -/

/-- **C4, counterexample.** For a brand-new package, `CreatePackage` (and
`AddUploader`) mutate the Store *before* the blob write: when the blob
write then fails, the post-failure Store still contains the new package
row, refuting "the Package/Version Store state is exactly as it was before
the request". -/
theorem claim4_counterexample :
    (publishPackage cDepsFailStore StoreState.empty () reqAlice).1 =
        .error (.storeFailed "disk full") ∧
      (publishPackage cDepsFailStore StoreState.empty () reqAlice).2.1.packages =
        [⟨0, "foo", false⟩] ∧
      StoreState.empty.packages = [] := by
  refine ⟨by decide, by decide, rfl⟩

theorem sqliteAddUploader_versions (st : StoreState) (pid : Nat) (u : String)
    (st2 : StoreState) (h : sqliteAddUploader st pid u = .ok st2) :
    st2.versions = st.versions := by
  unfold sqliteAddUploader at h
  split at h <;> simp only [Except.ok.injEq] at h <;> subst h <;> rfl

/-- **C4, amended.** At the moment the blob write is attempted no
*version-record* Store mutation has happened in the request: a blob-write
failure surfaces as `StorageError` with the version list exactly as before
the request — although for a brand-new package the package row and its
first-uploader registration may already have been created. -/
theorem claim4_no_version_write_before_blob {τ : Type}
    (stor : StorageRepo τ)
    (decode : Bytes → Except String (List TarEntry))
    (parse : String → Except String Pubspec) (sha : Bytes → String)
    (port : String) (st : StoreState) (bs : τ) (req : PublishRequest)
    (e : String) (st' : StoreState) (bs' : τ)
    (h : publishPackage ⟨decode, parse, sqliteRepo, stor, sha, port⟩ st bs req =
      (.error (.storeFailed e), st', bs')) :
    st'.versions = st.versions := by
  unfold publishPackage at h
  simp only [sqliteRepo, sqliteGetPackage, sqliteCreatePackage,
    sqliteAddUploader, sqliteCreateVersion] at h
  split at h
  · -- archive extraction failed: state untouched
    simp only [Prod.mk.injEq] at h
    rw [← h.2.1]
  · split at h
    · -- manifest parse failed: state untouched
      simp only [Prod.mk.injEq] at h
      rw [← h.2.1]
    · -- get-or-create step
      split at h
      · -- package-creation error propagated with the pre-request state
        simp only [Prod.mk.injEq] at h
        rw [← h.2.1]
      · rename_i pkg st1 heq3
        have hst1 : st1.versions = st.versions := by
          split at heq3
          · simp only [Except.ok.injEq, Prod.mk.injEq] at heq3
            rw [← heq3.2]
          · split at heq3
            · cases heq3
            · rename_i pkg2 st2 heq4
              simp only [Except.ok.injEq, Prod.mk.injEq] at heq3
              split at heq4
              · cases heq4
              · simp only [Except.ok.injEq, Prod.mk.injEq] at heq4
                rw [← heq3.2, ← heq4.2]
        -- authorization step
        split at h
        · simp only [Prod.mk.injEq] at h
          rw [← h.2.1]; exact hst1
        · rename_i st2 heq5
          have hst2 : st2.versions = st.versions := by
            split at heq5
            · split at heq5
              · cases heq5
              · rename_i s heq6
                simp only [Except.ok.injEq] at heq5
                split at heq6 <;> simp only [Except.ok.injEq] at heq6 <;>
                  rw [← heq5, ← heq6]
                · exact hst1
                · exact hst1
            · split at heq5
              · simp only [Except.ok.injEq] at heq5
                rw [← heq5]; exact hst1
              · cases heq5
          -- duplicate-version gate
          split at h
          · simp only [Prod.mk.injEq] at h
            rw [← h.2.1]; exact hst2
          · -- the blob write
            split at h
            · -- write failure: StorageError with the pre-write store state
              simp only [Prod.mk.injEq] at h
              rw [← h.2.1]; exact hst2
            · -- write succeeded: the remaining arms cannot yield StorageError
              split at h <;> simp at h

/-- **C4, witness.** The amended statement applied to the failing blob
store on an empty database. -/
theorem claim4_witness :
    (publishPackage cDepsFailStore StoreState.empty () reqAlice).2.1.versions =
      StoreState.empty.versions := by
  have h : publishPackage cDepsFailStore StoreState.empty () reqAlice =
      (.error (.storeFailed "disk full"),
       ⟨[⟨0, "foo", false⟩], [], [(0, "alice")], 1, 0, 0⟩, ()) := by decide
  have := claim4_no_version_write_before_blob failStorage cDecode
    (ParseYAML cUnmarshal) cSha "8080" StoreState.empty () reqAlice
    "disk full" ⟨[⟨0, "foo", false⟩], [], [(0, "alice")], 1, 0, 0⟩ () h
  rw [h]
  exact this

/-! ## Claim C6 — cleanup on partial failure -/

theorem find?_filter_ne (l : List (String × Bytes)) (path : String) :
    (l.filter fun f => !(f.1 == path)).find? (fun f => f.1 == path) = none := by
  rw [List.find?_eq_none]
  intro f hf
  have := (List.mem_filter.mp hf).2
  simpa using this

/-- **C6.** Whenever the Store's version-create call fails after the
archive blob was successfully written, the workflow deletes the just-written
blob — `Exists` on the blob's key is false afterwards — and propagates the
version-creation error (wrapped as "failed to create version record"). -/
theorem claim6_cleanup_on_create_failure {σ : Type}
    (repo : PkgRepo σ)
    (decode : Bytes → Except String (List TarEntry))
    (parse : String → Except String Pubspec) (sha : Bytes → String)
    (port : String) (st : σ) (bs : BlobState) (req : PublishRequest)
    (content : String) (rm cl : Option String) (ps : Pubspec)
    (e : String) (st' : σ) (bs' : BlobState)
    (hex : extractFilesFromArchive decode req.archive = .ok (content, rm, cl))
    (hps : parse content = .ok ps)
    (h : publishPackage ⟨decode, parse, repo, localRepo, sha, port⟩ st bs req =
      (.error (.createVersionFailed e), st', bs')) :
    localRepo.pathExists bs' (localPath bs.basePath ps.name ps.version) = false ∧
    PubErr.message (.createVersionFailed e) =
      "failed to create version record: " ++ e := by
  refine ⟨?_, rfl⟩
  unfold publishPackage at h
  simp only [hex, hps] at h
  split at h
  · simp at h
  · split at h
    · -- get-or-create error arm: the propagated error cannot be
      -- createVersionFailed
      rename_i e1 heq
      simp only [Prod.mk.injEq, Except.error.injEq] at h
      rw [h.1] at heq
      split at heq
      · cases heq
      · split at heq
        · simp at heq
        · cases heq
    · split at h
      · simp at h
      · split at h
        · -- authorization error arm: the propagated error cannot be
          -- createVersionFailed
          rename_i e1 heq
          simp only [Prod.mk.injEq, Except.error.injEq] at h
          rw [h.1] at heq
          split at heq
          · split at heq
            · simp at heq
            · cases heq
          · split at heq
            · cases heq
            · simp at heq
        · split at h
          · simp at h
          · split at h
            · simp at h
            · simp only [localRepo] at h
              split at h
              · -- version-create failed: the blob was deleted
                simp only [Prod.mk.injEq] at h
                rw [← h.2.2]
                simp [localRepo, BlobState.lookup, find?_filter_ne]
              · simp at h

/-- **C6, witness.** With a store whose version-create always fails, the
workflow reports the failure and the blob no longer exists. -/
theorem claim6_witness :
    localRepo.pathExists
        (publishPackage cDepsFailCreate StoreState.empty ⟨"/storage", []⟩
          reqAlice).2.2
        (localPath "/storage" "foo" "1.0.0") = false ∧
      PubErr.message (.createVersionFailed "db down") =
        "failed to create version record: " ++ "db down" := by
  have h : publishPackage cDepsFailCreate StoreState.empty ⟨"/storage", []⟩
      reqAlice =
      (.error (.createVersionFailed "db down"),
       ⟨[⟨0, "foo", false⟩], [], [(0, "alice")], 1, 0, 0⟩,
       ⟨"/storage", []⟩) := by decide
  have hc := claim6_cleanup_on_create_failure failCreateRepo cDecode
    (ParseYAML cUnmarshal) cSha "8080" StoreState.empty ⟨"/storage", []⟩
    reqAlice "name: foo\nversion: 1.0.0" (some "# Hello") none
    ⟨"foo", "1.0.0", "d"⟩ "db down"
    ⟨[⟨0, "foo", false⟩], [], [(0, "alice")], 1, 0, 0⟩ ⟨"/storage", []⟩
    (by decide) (by decide) h
  rw [h]
  exact hc

/-! ## Claim C7 — GetPackage postcondition -/

theorem versionToResponse_fields {σ τ : Type} (deps : PubDeps σ τ)
    (v : PackageVersion) (n : String) (r : VersionResponse)
    (h : versionToResponseWithPackage deps v n = .ok r) :
    r.version = v.version ∧ r.retracted = v.retracted := by
  unfold versionToResponseWithPackage at h
  split at h
  · cases h
  · simp only [Except.ok.injEq] at h
    rw [← h]
    exact ⟨rfl, rfl⟩

theorem convertAll_versions {σ τ : Type} (deps : PubDeps σ τ) (n : String) :
    ∀ (l : List PackageVersion) (resps : List VersionResponse),
      convertAll deps n l = .ok resps →
      resps.map (fun r => r.version) = l.map (fun v => v.version) := by
  intro l
  induction l with
  | nil =>
    intro resps h
    simp only [convertAll, Except.ok.injEq] at h
    rw [← h]
    rfl
  | cons v vs ih =>
    intro resps h
    unfold convertAll at h
    split at h
    · cases h
    · rename_i r heqr
      split at h
      · cases h
      · rename_i rs heqs
        simp only [Except.ok.injEq] at h
        rw [← h]
        simp only [List.map_cons]
        rw [(versionToResponse_fields deps v n r heqr).1, ih rs heqs]

/-- **C7.** `GetPackage(name)` returns null when no package of that name
exists; fails with the no-versions error ("package has no versions") when
the package row exists with zero versions; and otherwise returns all
versions in the store's newest-first order with `latest` converted from the
most recently created version regardless of its retracted flag. -/
theorem claim7_get_package
    (decode : Bytes → Except String (List TarEntry))
    (unmarshal : String → Except String Pubspec) (sha : Bytes → String)
    (port : String) (st : StoreState) (name : String) :
    (st.packages.find? (fun p => p.name == name) = none →
      getPackageService (mkDeps decode unmarshal sha port) st name = .ok none) ∧
    (∀ pkg, st.packages.find? (fun p => p.name == name) = some pkg →
      st.versionsOf pkg.id = [] →
      getPackageService (mkDeps decode unmarshal sha port) st name =
          .error .noVersions ∧
        GetErr.message .noVersions = "package has no versions") ∧
    (∀ pkg v0 vs resps r0,
      st.packages.find? (fun p => p.name == name) = some pkg →
      st.versionsOf pkg.id = v0 :: vs →
      convertAll (mkDeps decode unmarshal sha port) pkg.name (v0 :: vs) =
        .ok resps →
      versionToResponseWithPackage (mkDeps decode unmarshal sha port) v0
        pkg.name = .ok r0 →
      getPackageService (mkDeps decode unmarshal sha port) st name =
          .ok (some ⟨pkg.name, r0, resps⟩) ∧
        resps.map (fun r => r.version) = (v0 :: vs).map (fun v => v.version) ∧
        r0.version = v0.version ∧ r0.retracted = v0.retracted ∧
        (storeWF st = true →
          (v0 :: vs).Pairwise fun a b => b.createdAt < a.createdAt)) := by
  refine ⟨?_, ?_, ?_⟩
  · intro hfind
    simp only [getPackageService, mkDeps, sqliteRepo, sqliteGetPackage, hfind]
  · intro pkg hfind hv
    refine ⟨?_, rfl⟩
    simp only [getPackageService, mkDeps, sqliteRepo, sqliteGetPackage, hfind, hv]
  · intro pkg v0 vs resps r0 hfind hv hconv hr0
    refine ⟨?_, convertAll_versions _ _ _ _ hconv,
      (versionToResponse_fields _ _ _ _ hr0).1,
      (versionToResponse_fields _ _ _ _ hr0).2, ?_⟩
    · simp only [getPackageService, mkDeps, sqliteRepo, sqliteGetPackage,
        hfind, hv] at hconv hr0 ⊢
      simp only [hconv, hr0]
    · intro hwf
      have hs := sortedDescBool_pairwise st.versions (storeWF_spec st hwf).2.2.2
      have hsub : (st.versions.filter
          (fun v => v.packageID == pkg.id)).Pairwise
            (fun a b => b.createdAt < a.createdAt) :=
        List.Pairwise.sublist (List.filter_sublist st.versions) hs
      rw [show st.versions.filter (fun v => v.packageID == pkg.id) = v0 :: vs
          from hv] at hsub
      exact hsub

/-- **C7, witness.** The three branches at concrete states: an absent name,
a package row with zero versions, and `foo` with one version. -/
theorem claim7_witness :
    getPackageService (mkDeps cDecode cUnmarshal cSha "8080") stFoo "nope" =
        .ok none ∧
      getPackageService (mkDeps cDecode cUnmarshal cSha "8080")
          ⟨[⟨0, "foo", false⟩], [], [], 1, 0, 0⟩ "foo" = .error .noVersions ∧
      getPackageService (mkDeps cDecode cUnmarshal cSha "8080") stFoo "foo" =
        .ok (some ⟨"foo",
          ⟨"1.0.0", false,
           "http://localhost:8080/packages/foo/versions/1.0.0/download",
           "abc123", ⟨"foo", "1.0.0", "d"⟩⟩,
          [⟨"1.0.0", false,
            "http://localhost:8080/packages/foo/versions/1.0.0/download",
            "abc123", ⟨"foo", "1.0.0", "d"⟩⟩]⟩) :=
  ⟨(claim7_get_package cDecode cUnmarshal cSha "8080" stFoo "nope").1
     (by decide),
   ((claim7_get_package cDecode cUnmarshal cSha "8080"
       ⟨[⟨0, "foo", false⟩], [], [], 1, 0, 0⟩ "foo").2.1 ⟨0, "foo", false⟩
     (by decide) (by decide)).1,
   ((claim7_get_package cDecode cUnmarshal cSha "8080" stFoo "foo").2.2
     ⟨0, "foo", false⟩ recFoo []
     [⟨"1.0.0", false,
       "http://localhost:8080/packages/foo/versions/1.0.0/download",
       "abc123", ⟨"foo", "1.0.0", "d"⟩⟩]
     ⟨"1.0.0", false,
      "http://localhost:8080/packages/foo/versions/1.0.0/download",
      "abc123", ⟨"foo", "1.0.0", "d"⟩⟩
     (by decide) (by decide) (by decide) (by decide)).1⟩

/-- A publish with the constant uploader identity preserves well-formedness
and the sole-uploader property, and never takes the unauthorized branch. -/
theorem publish_auth_step
    (decode : Bytes → Except String (List TarEntry))
    (unmarshal : String → Except String Pubspec) (sha : Bytes → String)
    (port : String) (st : StoreState) (bs : BlobState) (req : PublishRequest)
    (hwf : storeWF st = true)
    (hauth : ∀ p ∈ st.packages, st.uploadersOf p.id = ["authenticated-user"])
    (hup : req.uploader = "authenticated-user") :
    storeWF (publishPackage (mkDeps decode unmarshal sha port) st bs req).2.1 =
        true ∧
    (∀ p ∈ (publishPackage (mkDeps decode unmarshal sha port) st bs
        req).2.1.packages,
      (publishPackage (mkDeps decode unmarshal sha port) st bs
          req).2.1.uploadersOf p.id = ["authenticated-user"]) ∧
    (∀ n, (publishPackage (mkDeps decode unmarshal sha port) st bs req).1 ≠
      .error (.unauthorized n)) := by
  obtain ⟨hwp, hwu, hwv, hws⟩ := storeWF_spec st hwf
  cases hex : extractFilesFromArchive decode req.archive with
  | error e =>
    have hrun : publishPackage (mkDeps decode unmarshal sha port) st bs req =
        (.error (.extractFailed e.message), st, bs) := by
      simp only [publishPackage, mkDeps, hex]
    rw [hrun]
    exact ⟨hwf, hauth, by simp⟩
  | ok triple =>
    obtain ⟨content, rm, cl⟩ := triple
    cases hps : ParseYAML unmarshal content with
    | error e =>
      have hrun : publishPackage (mkDeps decode unmarshal sha port) st bs req =
          (.error (.parseFailed e), st, bs) := by
        simp only [publishPackage, mkDeps, hex, hps]
      rw [hrun]
      exact ⟨hwf, hauth, by simp⟩
    | ok ps =>
      cases hfind : st.packages.find? (fun p => p.name == ps.name) with
      | some pkg =>
        have hpkgmem := List.mem_of_find?_eq_some hfind
        have hupls := hauth pkg hpkgmem
        have hpkgid := hwp pkg hpkgmem
        have hne : st.uploadersOf pkg.id ≠ [] := by rw [hupls]; simp
        have hmem : (st.uploadersOf pkg.id).contains req.uploader = true := by
          rw [hupls, hup]; decide
        by_cases hdup : (st.versionsOf pkg.id).any
            (fun v => v.version == ps.version) = true
        · have hrun := publish_existing_duplicate decode unmarshal sha port st
            bs req content rm cl ps pkg hex hps hfind hne hmem hdup
          rw [hrun]
          exact ⟨hwf, hauth, by simp⟩
        · have hdupf : (st.versionsOf pkg.id).any
              (fun v => v.version == ps.version) = false := by
            simpa using hdup
          have hrun := publish_existing_ok decode unmarshal sha port st bs req
            content rm cl ps pkg hex hps hfind hne hmem hdupf
          rw [hrun]
          refine ⟨?_, ?_, by simp⟩
          · unfold storeWF
            simp only [Bool.and_eq_true, List.all_eq_true, decide_eq_true_eq]
            refine ⟨⟨⟨fun p hp => hwp p hp, fun pu hpu => hwu pu hpu⟩, ?_⟩, ?_⟩
            · intro v hv
              simp only [List.mem_cons] at hv
              rcases hv with hv | hv
              · rw [hv]
                exact ⟨hpkgid, Nat.lt_succ_self st.clock⟩
              · have := hwv v hv
                exact ⟨this.1, by omega⟩
            · refine sortedDescBool_cons _ _ ?_ hws
              intro v hv
              exact (hwv v hv).2
          · intro p hp
            exact hauth p hp
      | none =>
        have hupl : ∀ pu ∈ st.uploaders, ¬(pu.1 = st.nextPkgId) := by
          intro pu hm h; have := hwu pu hm; omega
        have hver : ∀ v ∈ st.versions, ¬(v.packageID = st.nextPkgId) := by
          intro v hm h; have := hwv v hm; omega
        have hrun := publish_new_ok decode unmarshal sha port st bs req
          content rm cl ps hex hps hfind hupl hver
        rw [hrun]
        refine ⟨?_, ?_, by simp⟩
        · unfold storeWF
          simp only [Bool.and_eq_true, List.all_eq_true, decide_eq_true_eq]
          refine ⟨⟨⟨?_, ?_⟩, ?_⟩, ?_⟩
          · intro p hp
            simp only [List.mem_append, List.mem_singleton] at hp
            rcases hp with hp | hp
            · have := hwp p hp; omega
            · rw [hp]; simp
          · intro pu hpu
            simp only [List.mem_append, List.mem_singleton] at hpu
            rcases hpu with hpu | hpu
            · have := hwu pu hpu; omega
            · rw [hpu]; simp
          · intro v hv
            simp only [List.mem_cons] at hv
            rcases hv with hv | hv
            · rw [hv]
              exact ⟨Nat.lt_succ_self st.nextPkgId, Nat.lt_succ_self st.clock⟩
            · have := hwv v hv
              exact ⟨by omega, by omega⟩
          · refine sortedDescBool_cons _ _ ?_ hws
            intro v hv
            exact (hwv v hv).2
        · intro p hp
          simp only [List.mem_append, List.mem_singleton] at hp
          rcases hp with hp | hp
          · have hlt := hwp p hp
            have hne2 : (st.nextPkgId == p.id) = false := by
              simp only [beq_eq_false_iff_ne, ne_eq]
              omega
            have hsing : List.filter (fun pu => pu.1 == p.id)
                [(st.nextPkgId, req.uploader)] = [] := by
              simp [hne2]
            simp only [StoreState.uploadersOf, List.filter_append, hsing,
              List.append_nil]
            exact hauth p hp
          · rw [hp]
            simp only [StoreState.uploadersOf, List.filter_append]
            have hnil : st.uploaders.filter
                (fun pu => pu.1 == st.nextPkgId) = [] :=
              List.filter_eq_nil_iff.mpr (by simpa using hupl)
            rw [hnil]
            simp [hup]

/-- Staging an upload through the handler preserves the invariant: the
stored request carries the constant uploader identity. -/
theorem stage_inv (baseURL : String) (s : SysState) (a : Bytes)
    (h : authenticatedInv s) :
    authenticatedInv (uploadPackageHandler baseURL s a).2 := by
  obtain ⟨h1, h2, h3⟩ := h
  refine ⟨h1, h2, ?_⟩
  intro kv hkv
  simp only [uploadPackageHandler, stageUpload, mapSet, List.mem_cons] at hkv
  rcases hkv with hkv | hkv
  · rw [hkv]
  · exact h3 kv (List.mem_of_mem_filter hkv)

/-- Finalizing through the handler preserves the invariant and never
produces the unauthorized error. -/
theorem finalize_inv
    (decode : Bytes → Except String (List TarEntry))
    (unmarshal : String → Except String Pubspec) (sha : Bytes → String)
    (port : String) (s : SysState) (tok : String)
    (h : authenticatedInv s) :
    authenticatedInv
        (finalizeUploadHandler (mkDeps decode unmarshal sha port) s tok).2 ∧
    (∀ n, (finalizeUploadHandler (mkDeps decode unmarshal sha port) s
        tok).1 ≠ .publishFailed (.unauthorized n)) := by
  obtain ⟨h1, h2, h3⟩ := h
  unfold finalizeUploadHandler takeAndRemove
  cases hfind : s.pending.find? (fun kv => kv.1 == tok) with
  | none =>
    simp only [hfind, Option.map_none']
    exact ⟨⟨h1, h2, h3⟩, by simp⟩
  | some kv =>
    simp only [hfind, Option.map_some']
    have hkvmem := List.mem_of_find?_eq_some hfind
    have hupl := h3 kv hkvmem
    have hstep := publish_auth_step decode unmarshal sha port s.store s.blobs
      kv.2 h1 h2 hupl
    have hpend : ∀ kv2 ∈ s.pending.filter (fun kv2 => !(kv2.1 == tok)),
        kv2.2.uploader = "authenticated-user" :=
      fun kv2 hkv2 => h3 kv2 (List.mem_of_mem_filter hkv2)
    cases hpub : publishPackage (mkDeps decode unmarshal sha port) s.store
        s.blobs kv.2 with
    | mk res rest =>
      obtain ⟨st1, bs1⟩ := rest
      rw [hpub] at hstep
      cases res with
      | error e =>
        refine ⟨⟨hstep.1, hstep.2.1, hpend⟩, ?_⟩
        intro n hcontra
        simp only [FinalizeResult.publishFailed.injEq] at hcontra
        exact hstep.2.2 n (by rw [hcontra])
      | ok r =>
        exact ⟨⟨hstep.1, hstep.2.1, hpend⟩, by simp⟩

/-- The invariant holds along every handler-driven run. -/
theorem runOps_inv
    (decode : Bytes → Except String (List TarEntry))
    (unmarshal : String → Except String Pubspec) (sha : Bytes → String)
    (port baseURL : String) :
    ∀ (ops : List ClientOp) (s : SysState), authenticatedInv s →
      authenticatedInv
        (runOps (mkDeps decode unmarshal sha port) baseURL s ops) := by
  intro ops
  induction ops with
  | nil => intro s h; exact h
  | cons op ops ih =>
    intro s h
    cases op with
    | upload a => exact ih _ (stage_inv baseURL s a h)
    | finalize k =>
      exact ih _ (finalize_inv decode unmarshal sha port s k h).1

/-- **C10.** Every pending upload staged through the HTTP upload handler
records the constant uploader identity `authenticated-user`; consequently,
for any sequence of operations performed exclusively through the HTTP
handlers from a fresh server, every package's authorized-uploader set is
exactly `["authenticated-user"]` and the `UnauthorizedUploaderError` branch
of the finalize workflow is unreachable. -/
theorem claim10_constant_uploader
    (decode : Bytes → Except String (List TarEntry))
    (unmarshal : String → Except String Pubspec) (sha : Bytes → String)
    (port baseURL basePath : String) (ops : List ClientOp) :
    (∀ kv ∈ (runOps (mkDeps decode unmarshal sha port) baseURL
        (initialSys basePath) ops).pending,
      kv.2.uploader = "authenticated-user") ∧
    (∀ p ∈ (runOps (mkDeps decode unmarshal sha port) baseURL
        (initialSys basePath) ops).store.packages,
      (runOps (mkDeps decode unmarshal sha port) baseURL
          (initialSys basePath) ops).store.uploadersOf p.id =
        ["authenticated-user"]) ∧
    (∀ tok n,
      (finalizeUploadHandler (mkDeps decode unmarshal sha port)
          (runOps (mkDeps decode unmarshal sha port) baseURL
            (initialSys basePath) ops) tok).1 ≠
        .publishFailed (.unauthorized n)) := by
  have hinit : authenticatedInv (initialSys basePath) :=
    ⟨rfl, by simp [initialSys, StoreState.empty], by simp [initialSys]⟩
  have hinv := runOps_inv decode unmarshal sha port baseURL ops _ hinit
  exact ⟨hinv.2.2, hinv.2.1,
    fun tok n =>
      (finalize_inv decode unmarshal sha port _ tok hinv).2 n⟩

/-- **C10, witness.** After staging and finalizing one archive through the
handlers, the single created package's uploader set is exactly
`["authenticated-user"]`, and finalizing any token at that state cannot
produce the unauthorized error. -/
theorem claim10_witness :
    (runOps (mkDeps cDecode cUnmarshal cSha "8080") "http://x"
        (initialSys "/storage")
        [.upload [1, 2, 3], .finalize "upload_3"]).store.uploadersOf 0 =
      ["authenticated-user"] ∧
    (finalizeUploadHandler (mkDeps cDecode cUnmarshal cSha "8080")
        (runOps (mkDeps cDecode cUnmarshal cSha "8080") "http://x"
          (initialSys "/storage")
          [.upload [1, 2, 3], .finalize "upload_3"]) "upload_3").1 ≠
      .publishFailed (.unauthorized "foo") :=
  ⟨(claim10_constant_uploader cDecode cUnmarshal cSha "8080" "http://x"
      "/storage" [.upload [1, 2, 3], .finalize "upload_3"]).2.1
      ⟨0, "foo", false⟩ (by decide),
   (claim10_constant_uploader cDecode cUnmarshal cSha "8080" "http://x"
      "/storage" [.upload [1, 2, 3], .finalize "upload_3"]).2.2
      "upload_3" "foo"⟩

end Repub
